import Mathlib

/-!
Verification of the cloud-gate AWS broker (broker/aws/impl.go, broker/aws/api.go).

The Go code is shallowly embedded: Go maps become association lists
(`List (String × α)` with `lookupM` and `insertM`), `time.Time` values become
`Int` seconds (`t.After(u)` becomes `u < t`, the zero time becomes `0`),
network calls (STS AssumeRole, IAM ListRoles, instance metadata, PGP
decryption of the sealed file) become explicit oracle parameters supplying
the outcome the environment would produce, and functions returning
`(value, error)` become `Except String value` or `value × Option String`.
String lengths and case folding are modelled with Lean `String.length` and
`stringToLower`, which agree with Go on ASCII data.
-/

namespace CloudGate

/-- Association-list lookup, modelling a read from a Go map. -/
def lookupM (k : String) : List (String × α) → Option α
  | [] => none
  | (k2, v) :: rest => if k2 = k then some v else lookupM k rest

/-- Association-list insert/replace, modelling a write to a Go map. -/
def insertM (k : String) (v : α) : List (String × α) → List (String × α)
  | [] => [(k, v)]
  | (k2, v2) :: rest =>
    if k2 = k then (k2, v) :: rest else (k2, v2) :: insertM k v rest

/-- From broker/aws/impl.go: roleCacheDuration = 1800 seconds. -/
def roleCacheDuration : Int := 1800

/-- From broker/aws/impl.go: negativeCacheSeconds = 15. -/
def negativeCacheSeconds : Int := 15

/-- From broker/aws/impl.go: cacheDuration = 300 seconds (user-authz cache). -/
def cacheDuration : Int := 300

/-- From broker/aws/api.go: accountRoleCacheEntry. -/
structure accountRoleCacheEntry where
  Roles : List String
  Expiration : Int
  LastBadTime : Int
  deriving DecidableEq, Repr

/-- broker.PermittedAccount, as consumed by broker/aws/impl.go. -/
structure PermittedAccount where
  Name : String
  HumanName : String
  PermittedRoleName : List String
  deriving DecidableEq, Repr

/-- From broker/aws/api.go: userAllowedCredentialsCacheEntry. -/
structure userAllowedCredentialsCacheEntry where
  PermittedAccounts : List PermittedAccount
  Expiration : Int
  deriving DecidableEq, Repr

/-- Embeds Broker.getAWSRolesForAccount (broker/aws/impl.go). The cache map
and the current time are passed explicitly; `nonCached` is the outcome the
single potential call to getAWSRolesForAccountNonCached would produce.
Returns the (roles, error) result paired with the updated cache map. -/
def getAWSRolesForAccount (cache : List (String × accountRoleCacheEntry))
    (now : Int) (nonCached : Except String (List String))
    (accountName : String) :
    Except String (List String) × List (String × accountRoleCacheEntry) :=
  match lookupM accountName cache with
  | some cachedEntry =>
    if now < cachedEntry.Expiration then
      (.ok cachedEntry.Roles, cache)
    else if now - negativeCacheSeconds < cachedEntry.LastBadTime then
      (.ok cachedEntry.Roles, cache)
    else
      match nonCached with
      | .error _ =>
        (.ok cachedEntry.Roles,
          insertM accountName { cachedEntry with LastBadTime := now } cache)
      | .ok value =>
        (.ok value,
          insertM accountName
            { cachedEntry with
                Roles := value, Expiration := now + roleCacheDuration } cache)
  | none =>
    match nonCached with
    | .error e => (.error e, cache)
    | .ok value =>
      (.ok value,
        insertM accountName
          { Roles := value, Expiration := now + roleCacheDuration,
            LastBadTime := 0 } cache)

/-- Embeds Broker.getUserAllowedAccounts (broker/aws/impl.go); `nonCached`
is the outcome the single potential call to getUserAllowedAccountsNonCached
would produce. -/
def getUserAllowedAccounts
    (cache : List (String × userAllowedCredentialsCacheEntry)) (now : Int)
    (nonCached : Except String (List PermittedAccount)) (username : String) :
    Except String (List PermittedAccount) ×
      List (String × userAllowedCredentialsCacheEntry) :=
  match lookupM username cache with
  | some cachedEntry =>
    if now < cachedEntry.Expiration then
      (.ok cachedEntry.PermittedAccounts, cache)
    else
      match nonCached with
      | .error _ => (.ok cachedEntry.PermittedAccounts, cache)
      | .ok value =>
        (.ok value,
          insertM username
            { PermittedAccounts := value, Expiration := now + cacheDuration }
            cache)
  | none =>
    match nonCached with
    | .error e => (.error e, cache)
    | .ok value =>
      (.ok value,
        insertM username
          { PermittedAccounts := value, Expiration := now + cacheDuration }
          cache)

/-- strings.HasPrefix from the Go standard library, on the character
sequences of the two strings. -/
def stringHasPrefix (s pre : String) : Bool :=
  pre.data.isPrefixOf s.data

/-- strings.ToLower from the Go standard library, character by character
(agrees with Go on the ASCII data the broker handles). -/
def stringToLower (s : String) : String :=
  ⟨s.data.map Char.toLower⟩

/-- Go slicing group[n:], character by character (agrees with Go byte
slicing on ASCII data). -/
def stringDrop (s : String) (n : Nat) : String :=
  ⟨s.data.drop n⟩

/-- Lexicographic order on character sequences: the order sort.Strings
sorts by (Go compares bytes; on ASCII data this is the same order). -/
def charListLe : List Char → List Char → Bool
  | [], _ => true
  | _ :: _, [] => false
  | c :: cs, d :: ds =>
    if c < d then true else if d < c then false else charListLe cs ds

/-- The string order sort.Strings uses. -/
def stringLe (s t : String) : Bool :=
  charListLe s.data t.data

/-- From broker/aws/impl.go: defaultRegion = "us-west-2". -/
def defaultRegion : String := "us-west-2"

/-- From broker/aws/impl.go: masterAWSProfileName = "broker-master". -/
def masterAWSProfileName : String := "broker-master"

/-- From broker/aws/impl.go: profileAssumeRoleDurationSeconds = 3600. -/
def profileAssumeRoleDurationSeconds : Int := 3600

/-- From broker/aws/api.go: awsProfileEntry. -/
structure awsProfileEntry where
  AccessKeyID : String
  SecretAccessKey : String
  Region : String
  deriving DecidableEq, Repr

/-- One parsed INI section: its name and its key/value assignments, the form
gopkg.in/ini.v1 hands to loadCredentialsFrombytes after a successful parse. -/
structure IniSection where
  name : String
  keys : List (String × String)
  deriving DecidableEq, Repr

/-- cfg.Section(name).Key(k).String() in gopkg.in/ini.v1: the value bound to
key k, or the empty string when the key is absent. -/
def iniKey (s : IniSection) (k : String) : String :=
  match lookupM k s.keys with
  | some v => v
  | none => ""

/-- The per-section body of the loop in Broker.loadCredentialsFrombytes:
the profile entry stored for a section, or none when the section is skipped
because a credential key is shorter than 3 characters. -/
def acceptSection (s : IniSection) : Option awsProfileEntry :=
  let accessKeyID := iniKey s "aws_access_key_id"
  let secretAccessKey := iniKey s "aws_secret_access_key"
  if accessKeyID.length < 3 ∨ secretAccessKey.length < 3 then none
  else
    let region := iniKey s "region"
    some { AccessKeyID := accessKeyID, SecretAccessKey := secretAccessKey,
           Region := if region = "" then defaultRegion else region }

/-- The loop of Broker.loadCredentialsFrombytes: fold the accepted sections
into the broker profile map. -/
def loadProfiles (init : List (String × awsProfileEntry))
    (sections : List IniSection) : List (String × awsProfileEntry) :=
  sections.foldl
    (fun m s =>
      match acceptSection s with
      | none => m
      | some entry => insertM s.name entry m)
    init

/-- Outcome of Broker.getCredentialsProviderFromMetaData: either the region
reported by the instance-metadata endpoint, or an error (in which case
finishUnsealing aborts without publishing). -/
inductive MetaOutcome where
  | ok (region : String)
  | err (e : String)
  deriving DecidableEq, Repr

/-- The unsealing-relevant state of a Broker (broker/aws/api.go): the
configured credentials file name, the profile map, the master STS client
(represented by its region when constructed), and the number of values that
have been sent on the buffered isUnsealedChannel. -/
structure UnsealSt where
  credentialsFilename : String
  profileCredentials : List (String × awsProfileEntry)
  masterSts : Option String
  sends : Nat
  deriving DecidableEq, Repr

/-- The state newBroker (broker/aws/impl.go) creates: empty profile map, no
master client, empty channel. -/
def initBroker (credentialsFilename : String) : UnsealSt :=
  { credentialsFilename := credentialsFilename, profileCredentials := [],
    masterSts := none, sends := 0 }

/-- Embeds Broker.getCredentialsProviderFromProfile restricted to the data
finishUnsealing consumes: the region the resolved credentials provider
carries (the static provider itself holds no observable state here). -/
def getCredentialsProviderFromProfile
    (profiles : List (String × awsProfileEntry)) (meta : MetaOutcome)
    (profileName : String) : Except String String :=
  match lookupM profileName profiles with
  | some profileEntry => .ok profileEntry.Region
  | none =>
    if profileName = masterAWSProfileName then
      match meta with
      | .ok region => .ok region
      | .err e => .error e
    else .error ("invalid profileName: " ++ profileName)

/-- Embeds Broker.finishUnsealing: resolves master credentials; on a
resolution error or an empty region it logs and returns with no other
effect; otherwise it constructs the master STS client and sends one nil on
the readiness channel. The Go function always returns a nil error. -/
def finishUnsealing (st : UnsealSt) (meta : MetaOutcome) : UnsealSt :=
  match getCredentialsProviderFromProfile st.profileCredentials meta
      masterAWSProfileName with
  | .error _ => st
  | .ok region =>
    if region = "" then st
    else { st with masterSts := some region, sends := st.sends + 1 }

/-- Embeds Broker.loadCredentialsFrombytes applied to already-parsed INI
sections: stores the accepted sections, fails with "nothing loaded" when the
profile map stays empty, and otherwise finishes unsealing. Returns the error
(as an Option) paired with the updated broker state. -/
def loadCredentialsFrombytes (st : UnsealSt) (sections : List IniSection)
    (meta : MetaOutcome) : Option String × UnsealSt :=
  let m := loadProfiles st.profileCredentials sections
  if m.length < 1 then
    (some "nothing loaded", { st with profileCredentials := m })
  else (none, finishUnsealing { st with profileCredentials := m } meta)

/-- Environment of one processNewUnsealingSecret call, covering the
observable outcomes of armor.Decode, openpgp.ReadMessage / ReadAll of the
decrypted body, ini.Load on the plaintext, and the metadata endpoint:
armorFail and readFail carry the error bubbled to the caller; iniParseFail
is a plaintext whose INI parse fails; plaintext carries the parsed sections
and the metadata outcome finishUnsealing would observe. -/
inductive CallEnv where
  | armorFail (e : String)
  | readFail (e : String)
  | iniParseFail
  | plaintext (sections : List IniSection) (meta : MetaOutcome)
  deriving DecidableEq, Repr

/-- Embeds Broker.processNewUnsealingSecret (broker/aws/impl.go): fast path
when no credentials file is configured or the profile map is non-empty;
otherwise decode, decrypt and load, mapping a loadCredentialsFrombytes error
to (false, nil). -/
def processNewUnsealingSecret (st : UnsealSt) (env : CallEnv) :
    (Bool × Option String) × UnsealSt :=
  if st.credentialsFilename = "" ∨ 0 < st.profileCredentials.length then
    ((true, none), st)
  else
    match env with
    | .armorFail e => ((false, some e), st)
    | .readFail e => ((false, some e), st)
    | .iniParseFail => ((false, none), st)
    | .plaintext sections meta =>
      match loadCredentialsFrombytes st sections meta with
      | (some _, st2) => ((false, none), st2)
      | (none, st2) => ((true, none), st2)

/-- A sequence of processNewUnsealingSecret calls on one broker. -/
def runUnsealSteps (st : UnsealSt) (envs : List CallEnv) : UnsealSt :=
  envs.foldl (fun s env => (processNewUnsealingSecret s env).2) st

/-- A configured account (broker/configuration): Name, AccountID,
DisplayName, GroupName, ExtraUserRoles; empty strings model unset fields. -/
structure Account where
  Name : String
  AccountID : String
  DisplayName : String
  GroupName : String
  ExtraUserRoles : List String
  deriving DecidableEq, Repr

/-- The group name an account is looked up by, before lowercasing:
account.GroupName, defaulting to account.Name when unset
(getUserAllowedAccountsFromGroups, broker/aws/impl.go). -/
def accountGroupName (account : Account) : String :=
  if account.GroupName.length = 0 then account.Name else account.GroupName

/-- Embeds Broker.accountHumanNameFromName (broker/aws/impl.go). -/
def accountHumanNameFromName (accounts : List Account)
    (accountName : String) : Except String String :=
  match accounts.find? (fun account => account.Name == accountName) with
  | some account =>
    if account.DisplayName ≠ "" then .ok account.DisplayName
    else .ok account.Name
  | none => .error "accountNAme not found"

/-- Embeds stringIntersectionNoDups (broker/aws/impl.go): build a map from
lowercased set1 element to its original casing (later elements overwrite
earlier ones), then keep, for every element of set2 in order, the map value
under its lowercase form. -/
def stringIntersectionNoDups (set1 set2 : List String) : List String :=
  let stringMap :=
    set1.foldl (fun m v1 => insertM (stringToLower v1) v1 m)
      ([] : List (String × String))
  set2.filterMap fun v2 => lookupM (stringToLower v2) stringMap

/-- sort.Strings from the Go standard library: since equal strings are
indistinguishable, the sorted permutation is unique and insertion sort
computes it. -/
def sortStrings (l : List String) : List String :=
  l.insertionSort fun a b => stringLe a b = true

/-- Appending to a Go map entry holding a slice: append to the existing
slice, or bind the key fresh when absent. -/
def appendM (k : String) (vs : List String) (m : List (String × List String)) :
    List (String × List String) :=
  match lookupM k m with
  | some current => insertM k (current ++ vs) m
  | none => insertM k vs m

/-- The regex-matching double loop of getUserAllowedAccountsFromGroups,
with the per-group regex test abstracted as `matcher accountName group`
(some capturedRole on a match of the pattern built from accountName). -/
def buildAllowedRoles (matcher : String → String → Option String)
    (groupList : List String) (userGroups : List String) :
    List (String × List String) :=
  groupList.foldl
    (fun m accountName =>
      userGroups.foldl
        (fun m2 group =>
          match matcher accountName group with
          | some role => appendM accountName [role] m2
          | none => m2)
        m)
    []

/-- Models the compiled regex (?i)^name-(.*)$ of
getUserAllowedAccountsFromGroups for account group names that contain no
regex metacharacters (name is already lowercased by the caller): the group
matches when its lowercase form starts with name followed by a hyphen, and
the capture is the remainder of the original group string. -/
def groupRoleMatch (accountName group : String) : Option String :=
  if stringHasPrefix (stringToLower group) (accountName ++ "-") then
    some (stringDrop group (accountName.length + 1))
  else none

/-- The extra-roles loop of getUserAllowedAccountsFromGroups: for every
account with a non-empty ExtraUserRoles list, append those roles under the
key account.Name. -/
def addExtraRoles (accounts : List Account)
    (m : List (String × List String)) : List (String × List String) :=
  accounts.foldl
    (fun m2 account =>
      if account.ExtraUserRoles.length < 1 then m2
      else
        match lookupM account.Name m2 with
        | some currentValue =>
          insertM account.Name (currentValue ++ account.ExtraUserRoles) m2
        | none => insertM account.Name account.ExtraUserRoles m2)
    m

/-- The goroutine body of getUserAllowedAccountsFromGroups: enumerate the
live roles of the account via the `live` oracle (getAWSRolesForAccount),
intersect them with the allowed roles, drop the account when enumeration
failed or the intersection is empty, and otherwise emit the account with
the sorted intersection. -/
def emitOneAccount (live : String → Except String (List String))
    (accountName displayName : String) (allowedRoles : List String) :
    List PermittedAccount :=
  match live accountName with
  | .error _ => []
  | .ok rolesForAccount =>
    let allowedAndAvailable :=
      stringIntersectionNoDups rolesForAccount allowedRoles
    if allowedAndAvailable.length < 1 then []
    else
      [{ Name := accountName, HumanName := displayName,
         PermittedRoleName := sortStrings allowedAndAvailable }]

/-- The per-entry emission of getUserAllowedAccountsFromGroups: map the
group name back to the account name (error when impossible), resolve the
display name, and run the goroutine body for each entry. -/
def emitPermitted (accounts : List Account)
    (groupToAccountName : List (String × String))
    (live : String → Except String (List String)) :
    List (String × List String) → Except String (List PermittedAccount)
  | [] => .ok []
  | (groupName, allowedRoles) :: rest =>
    match lookupM groupName groupToAccountName with
    | none => .error "Cannot map to accountname for some username"
    | some accountName =>
      match accountHumanNameFromName accounts accountName with
      | .error e => .error e
      | .ok displayName =>
        match emitPermitted accounts groupToAccountName live rest with
        | .error e => .error e
        | .ok others =>
          .ok (emitOneAccount live accountName displayName allowedRoles
            ++ others)

/-- The groupToAccountName map of getUserAllowedAccountsFromGroups
(broker/aws/impl.go): lowercased group name (defaulting to the account
name) to account name. -/
def groupToAccountNameMap (accounts : List Account) :
    List (String × String) :=
  accounts.foldl
    (fun m account =>
      insertM (stringToLower (accountGroupName account)) account.Name m)
    []

/-- The allowedRoles map of getUserAllowedAccountsFromGroups
(broker/aws/impl.go): the roles granted to the user, per lowercased group
name, as computed from the regex matches over the user's groups
(buildAllowedRoles over the groupList) and then merged with each account's
configured ExtraUserRoles (addExtraRoles). -/
def allowedRolesMap (accounts : List Account)
    (matcher : String → String → Option String)
    (userGroups : List String) : List (String × List String) :=
  addExtraRoles accounts
    (buildAllowedRoles matcher
      (accounts.map fun account => stringToLower (accountGroupName account))
      userGroups)

/-- Embeds Broker.getUserAllowedAccountsFromGroups (broker/aws/impl.go).
`matcher` abstracts the compiled (?i)^name-(.*)$ regex test, `live`
abstracts getAWSRolesForAccount. The Go goroutines publish into a
mutex-guarded slice in nondeterministic order and the spec leaves the order
unspecified; this embedding fixes the allowed-roles map iteration order to
insertion order. -/
def getUserAllowedAccountsFromGroups (accounts : List Account)
    (matcher : String → String → Option String)
    (live : String → Except String (List String))
    (userGroups : List String) : Except String (List PermittedAccount) :=
  emitPermitted accounts (groupToAccountNameMap accounts) live
    (allowedRolesMap accounts matcher userGroups)

/-- sts.AssumeRoleOutput.Credentials, the fields the broker reads. -/
structure StsCredentials where
  AccessKeyId : String
  SecretAccessKey : String
  SessionToken : String
  deriving DecidableEq, Repr

/-- broker.AWSCredentialsJSON, the bundle generateTokenCredentials emits. -/
structure AWSCredentialsJSON where
  SessionId : String
  SessionKey : String
  SessionToken : String
  Region : String
  Expiration : Int
  deriving DecidableEq, Repr

/-- Embeds Broker.generateTokenCredentials (broker/aws/impl.go).
`assumeRole accountName profileName roleName roleSessionName` abstracts
withProfileAssumeRole, yielding the STS credentials and the region of the
client used. The Go fallback first tries the master profile, then the
profile named after the account. -/
def generateTokenCredentials
    (assumeRole : String → String → String → String →
      Except String (StsCredentials × String))
    (now : Int) (accountName roleName userName : String) :
    Except String AWSCredentialsJSON :=
  let attempt : Except String (StsCredentials × String) :=
    match assumeRole accountName masterAWSProfileName roleName userName with
    | .ok out => .ok out
    | .error _ => assumeRole accountName accountName roleName userName
  match attempt with
  | .error e => .error e
  | .ok (creds, region0) =>
    let region := if stringHasPrefix region0 "us-gov-" then region0 else ""
    .ok { SessionId := creds.AccessKeyId,
          SessionKey := creds.SecretAccessKey,
          SessionToken := creds.SessionToken,
          Region := region,
          Expiration := now + profileAssumeRoleDurationSeconds }

/-- The double loop in Broker.isUserAllowedToAssumeRole: does some permitted
account named `accountName` list `roleName`? -/
def roleInAccounts (accounts : List PermittedAccount)
    (accountName roleName : String) : Bool :=
  accounts.any fun account =>
    account.Name == accountName &&
      account.PermittedRoleName.any fun permittedRoleName =>
        permittedRoleName == roleName

/-- Embeds Broker.isUserAllowedToAssumeRole (broker/aws/impl.go). -/
def isUserAllowedToAssumeRole
    (cache : List (String × userAllowedCredentialsCacheEntry)) (now : Int)
    (nonCached : Except String (List PermittedAccount))
    (username accountName roleName : String) :
    (Bool × Option String) ×
      List (String × userAllowedCredentialsCacheEntry) :=
  match getUserAllowedAccounts cache now nonCached username with
  | (.error e, cache2) => ((false, some e), cache2)
  | (.ok permittedAccount, cache2) =>
    ((roleInAccounts permittedAccount accountName roleName, none), cache2)

/-- Fixture: a profile entry as loadCredentialsFrombytes would store it. -/
def sampleProfile : awsProfileEntry :=
  ⟨"AKIA", "SECRET", "us-west-2"⟩

/-- Fixture: an INI section with both credential keys of length 3. -/
def iniSectionABC : IniSection :=
  ⟨"p", [("aws_access_key_id", "abc"), ("aws_secret_access_key", "xyz")]⟩

/-- Fixture: an INI section whose access key id has length 2 (skipped). -/
def iniSectionShort : IniSection :=
  ⟨"p", [("aws_access_key_id", "ab"), ("aws_secret_access_key", "xyz")]⟩

/-- Fixture: an INI section for a non-master profile. -/
def iniSectionOther : IniSection :=
  ⟨"other-account",
   [("aws_access_key_id", "AKIA"), ("aws_secret_access_key", "SECRET")]⟩

/-- Fixture: an unsealed broker state with one loaded profile. -/
def unsealedSt : UnsealSt :=
  ⟨"creds", [("p", sampleProfile)], some "us-west-2", 1⟩

/-- Fixture: a sealed broker state whose profile map holds the master
profile (as after a successful plaintext load, before finishUnsealing). -/
def masterLoadedSt : UnsealSt :=
  ⟨"creds", [("broker-master", sampleProfile)], none, 0⟩

/-- Fixture: an account with a configured extra user role. -/
def acctWithExtra : Account :=
  ⟨"acct1", "1", "", "", ["Admin"]⟩

/-- Fixture: an account with no extra user roles. -/
def acctPlain : Account :=
  ⟨"acct1", "1", "", "", []⟩

/-- Fixture: a live-role oracle that lists exactly the role Admin in every
account. -/
def liveAdmin : String → Except String (List String) :=
  fun _ => .ok ["Admin"]

theorem lookupM_insertM (k k2 : String) (v : α) (m : List (String × α)) :
    lookupM k2 (insertM k v m) = if k = k2 then some v else lookupM k2 m := by
  induction m with
  | nil => simp [lookupM, insertM]
  | cons hd tl ih =>
    obtain ⟨k3, v3⟩ := hd
    by_cases h3 : k3 = k
    · subst h3
      by_cases h2 : k3 = k2 <;> simp [lookupM, insertM, h2]
    · by_cases h2 : k3 = k2
      · subst h2
        have hne : ¬(k = k3) := fun h => h3 h.symm
        simp [lookupM, insertM, h3, hne]
      · simp [lookupM, insertM, h3, h2, ih]

theorem insertM_ne_nil (k : String) (v : α) (m : List (String × α)) :
    insertM k v m ≠ [] := by
  cases m with
  | nil => simp [insertM]
  | cons hd tl =>
    obtain ⟨k2, v2⟩ := hd
    unfold insertM
    split <;> simp

theorem loadProfiles_eq_nil_iff (sections : List IniSection)
    (init : List (String × awsProfileEntry)) :
    loadProfiles init sections = [] ↔
      init = [] ∧ ∀ s ∈ sections, acceptSection s = none := by
  induction sections generalizing init with
  | nil => simp [loadProfiles]
  | cons s ss ih =>
    unfold loadProfiles at ih ⊢
    rcases hacc : acceptSection s with _ | entry
    · rw [List.foldl_cons, hacc]
      rw [ih init]
      constructor
      · rintro ⟨h1, h2⟩
        exact ⟨h1, by
          intro s2 hs2
          rcases List.mem_cons.mp hs2 with h | h
          · subst h; exact hacc
          · exact h2 s2 h⟩
      · rintro ⟨h1, h2⟩
        exact ⟨h1, fun s2 hs2 => h2 s2 (List.mem_cons_of_mem _ hs2)⟩
    · rw [List.foldl_cons, hacc]
      rw [ih (insertM s.name entry init)]
      constructor
      · rintro ⟨h1, _⟩
        exact absurd h1 (insertM_ne_nil _ _ _)
      · rintro ⟨_, h2⟩
        have := h2 s (List.mem_cons_self _ _)
        rw [hacc] at this
        exact absurd this (by simp)

/-- C6: loadCredentialsFrombytes accepts a section exactly when both
credential keys have length at least 3 (so length 3 is accepted and length
2 or an absent key — the empty string — is skipped), stores the section
values with the region defaulting to us-west-2 when absent or empty, and
when no section at all is accepted fails with "nothing loaded", leaving a
freshly created broker sealed and unchanged. -/
theorem claim_C6_theorem :
    (∀ s : IniSection,
      (acceptSection s).isSome = true ↔
        (3 ≤ (iniKey s "aws_access_key_id").length ∧
          3 ≤ (iniKey s "aws_secret_access_key").length)) ∧
    (∀ (s : IniSection) (entry : awsProfileEntry),
      acceptSection s = some entry →
      entry.AccessKeyID = iniKey s "aws_access_key_id" ∧
        entry.SecretAccessKey = iniKey s "aws_secret_access_key" ∧
        entry.Region =
          (if iniKey s "region" = "" then "us-west-2"
           else iniKey s "region")) ∧
    (∀ (fname : String) (sections : List IniSection) (meta : MetaOutcome),
      ((loadCredentialsFrombytes (initBroker fname) sections meta).1 =
          some "nothing loaded" ↔
        ∀ s ∈ sections, acceptSection s = none)) ∧
    (∀ (fname : String) (sections : List IniSection) (meta : MetaOutcome),
      (∀ s ∈ sections, acceptSection s = none) →
      loadCredentialsFrombytes (initBroker fname) sections meta =
        (some "nothing loaded", initBroker fname)) := by
  refine ⟨?_, ?_, ?_, ?_⟩
  · intro s
    by_cases h : (iniKey s "aws_access_key_id").length < 3 ∨
        (iniKey s "aws_secret_access_key").length < 3
    · simp only [acceptSection, if_pos h, Option.isSome_none,
        Bool.false_eq_true, false_iff]
      omega
    · simp only [acceptSection, if_neg h, Option.isSome_some, true_iff]
      omega
  · intro s entry hacc
    by_cases h : (iniKey s "aws_access_key_id").length < 3 ∨
        (iniKey s "aws_secret_access_key").length < 3
    · simp only [acceptSection, if_pos h] at hacc
      exact absurd hacc (by simp)
    · simp only [acceptSection, if_neg h, Option.some.injEq] at hacc
      subst hacc
      exact ⟨rfl, rfl, rfl⟩
  · intro fname sections meta
    simp only [loadCredentialsFrombytes]
    by_cases hnil :
        loadProfiles (initBroker fname).profileCredentials sections = []
    · rw [hnil]
      simp only [List.length_nil, if_pos (by omega : (0:Nat) < 1)]
      simp only [true_iff]
      exact fun s hs => ((loadProfiles_eq_nil_iff sections _).mp hnil).2 s hs
    · have hlen :
          ¬(loadProfiles (initBroker fname).profileCredentials
              sections).length < 1 := by
        intro hcon
        exact hnil (List.length_eq_zero.mp (by omega))
      rw [if_neg hlen]
      constructor
      · intro h
        simp at h
      · intro hall
        exact absurd ((loadProfiles_eq_nil_iff sections _).mpr ⟨rfl, hall⟩)
          hnil
  · intro fname sections meta hall
    have hnil : loadProfiles (initBroker fname).profileCredentials sections
        = [] := (loadProfiles_eq_nil_iff sections _).mpr ⟨rfl, hall⟩
    simp only [loadCredentialsFrombytes]
    rw [hnil]
    simp only [List.length_nil, if_pos (by omega : (0:Nat) < 1)]
    rfl

theorem claim_C6_witness :
    ((acceptSection iniSectionABC).isSome = true ↔
      (3 ≤ (iniKey iniSectionABC "aws_access_key_id").length ∧
        3 ≤ (iniKey iniSectionABC "aws_secret_access_key").length)) ∧
    loadCredentialsFrombytes (initBroker "creds") [iniSectionShort]
        (.ok "us-east-1") =
      (some "nothing loaded", initBroker "creds") :=
  ⟨claim_C6_theorem.1 _,
   claim_C6_theorem.2.2.2 "creds" _ _ (by decide)⟩

theorem buildAllowedRoles_nil (matcher : String → String → Option String)
    (groupList : List String) :
    buildAllowedRoles matcher groupList [] = [] := by
  unfold buildAllowedRoles
  induction groupList with
  | nil => rfl
  | cons x xs ih => rw [List.foldl_cons]; exact ih

theorem addExtraRoles_nil (accounts : List Account)
    (h : ∀ a ∈ accounts, a.ExtraUserRoles = []) :
    addExtraRoles accounts [] = [] := by
  induction accounts with
  | nil => rfl
  | cons a as ih =>
    unfold addExtraRoles at ih ⊢
    rw [List.foldl_cons]
    have ha := h a (List.mem_cons_self _ _)
    rw [ha]
    simp only [List.length_nil]
    rw [if_pos (by omega)]
    exact ih fun a2 h2 => h a2 (List.mem_cons_of_mem _ h2)

/-- C9: with an empty user-group list the regex matching contributes
nothing, but the extra-roles loop still runs: an account configured with
extraUserRoles that intersect its live role list is emitted, so the result
is not the empty slice. -/
theorem claim_C9_counterexample :
    getUserAllowedAccountsFromGroups [acctWithExtra] groupRoleMatch
        (fun _ => .ok ["Admin"]) [] =
      .ok [⟨"acct1", "acct1", ["Admin"]⟩] ∧
    (.ok [(⟨"acct1", "acct1", ["Admin"]⟩ : PermittedAccount)] :
        Except String (List PermittedAccount)) ≠ .ok [] := by
  constructor
  · rfl
  · simp

/-- C9 (amended): when the IDP returns an empty group list and no account
configures extraUserRoles, getUserAllowedAccountsFromGroups returns the
empty permitted-accounts slice; accounts with configured extraUserRoles can
still be emitted on an empty group list. -/
theorem claim_C9_theorem (accounts : List Account)
    (matcher : String → String → Option String)
    (live : String → Except String (List String))
    (h : ∀ a ∈ accounts, a.ExtraUserRoles = []) :
    getUserAllowedAccountsFromGroups accounts matcher live [] = .ok [] := by
  simp only [getUserAllowedAccountsFromGroups, allowedRolesMap]
  rw [buildAllowedRoles_nil, addExtraRoles_nil accounts h]
  rfl

theorem claim_C9_witness :
    getUserAllowedAccountsFromGroups [acctPlain] groupRoleMatch
        (fun _ => .ok ["Admin"]) [] = .ok [] :=
  claim_C9_theorem _ _ _ (by decide)

/-- C3: processNewUnsealingSecret returns (true, nil) and leaves the state
untouched when the broker is already unsealed (non-empty profile map with a
configured credentials path); returns (false, err) with the non-nil error
when armor decoding or reading/decrypting the PGP body fails; and returns
(false, nil), still sealed and unchanged, when decryption succeeds but the
plaintext yields zero valid profiles. -/
theorem claim_C3_theorem :
    (∀ (st : UnsealSt) (env : CallEnv),
      st.credentialsFilename ≠ "" →
      0 < st.profileCredentials.length →
      processNewUnsealingSecret st env = ((true, none), st)) ∧
    (∀ (st : UnsealSt) (e : String),
      st.credentialsFilename ≠ "" →
      st.profileCredentials = [] →
      processNewUnsealingSecret st (.armorFail e) = ((false, some e), st) ∧
        processNewUnsealingSecret st (.readFail e) = ((false, some e), st)) ∧
    (∀ (st : UnsealSt) (sections : List IniSection) (meta : MetaOutcome),
      st.credentialsFilename ≠ "" →
      st.profileCredentials = [] →
      (∀ s ∈ sections, acceptSection s = none) →
      processNewUnsealingSecret st (.plaintext sections meta) =
        ((false, none), st)) := by
  refine ⟨?_, ?_, ?_⟩
  · intro st env hf hp
    unfold processNewUnsealingSecret
    rw [if_pos (Or.inr hp)]
  · intro st e hf hp
    have hlen : ¬(st.credentialsFilename = "" ∨
        0 < st.profileCredentials.length) := by
      rw [hp]; simp [hf]
    constructor <;>
      · unfold processNewUnsealingSecret
        rw [if_neg hlen]
  · intro st sections meta hf hp hall
    have hlen : ¬(st.credentialsFilename = "" ∨
        0 < st.profileCredentials.length) := by
      rw [hp]; simp [hf]
    have hnil : loadProfiles st.profileCredentials sections = [] :=
      (loadProfiles_eq_nil_iff sections _).mpr ⟨hp, hall⟩
    have hst : ({ st with profileCredentials := [] } : UnsealSt) = st := by
      rw [← hp]
    have hload : loadCredentialsFrombytes st sections meta =
        (some "nothing loaded", st) := by
      simp only [loadCredentialsFrombytes]
      rw [hnil]
      simp only [List.length_nil, if_pos (by omega : (0:Nat) < 1)]
      rw [hst]
    simp only [processNewUnsealingSecret, if_neg hlen, hload]

theorem claim_C3_witness :
    processNewUnsealingSecret unsealedSt (.armorFail "bad armor") =
      ((true, none), unsealedSt) ∧
    processNewUnsealingSecret (initBroker "creds") (.armorFail "bad armor") =
      ((false, some "bad armor"), initBroker "creds") ∧
    processNewUnsealingSecret (initBroker "creds")
        (.plaintext [iniSectionShort] (.ok "r")) =
      ((false, none), initBroker "creds") :=
  ⟨claim_C3_theorem.1 _ _ (by decide) (by decide),
   (claim_C3_theorem.2.1 _ "bad armor" (by decide) rfl).1,
   claim_C3_theorem.2.2 _ _ _ (by decide) rfl (by decide)⟩

/-- C4: in the stale-serve window the Go code returns early and never
executes the line that bumps LastBadTime, so the claimed bump to now does
not happen: with the entry expired (Expiration 0 ≤ now = 100) and
LastBadTime = 95 within the 15-second window, the call leaves the cache
map — including LastBadTime — unchanged, and 95 is not the current time. -/
theorem claim_C4_counterexample :
    (getAWSRolesForAccount
        [("acct1", { Roles := ["r"], Expiration := 0, LastBadTime := 95 })]
        100 (.error "boom") "acct1") =
      (.ok ["r"],
        [("acct1", { Roles := ["r"], Expiration := 0, LastBadTime := 95 })]) ∧
    (95 : Int) ≠ 100 := by
  constructor
  · rfl
  · decide

/-- C4 (amended): when the cached entry for an account is expired but its
LastBadTime is less than 15 seconds old, getAWSRolesForAccount returns the
previously cached roles, performs no upstream enumeration (the result does
not depend on the nonCached outcome), and leaves the whole cache map —
roles, expiration and lastBadAt included — unchanged. -/
theorem claim_C4_theorem (cache : List (String × accountRoleCacheEntry))
    (now : Int) (nonCached : Except String (List String))
    (accountName : String) (entry : accountRoleCacheEntry)
    (hfound : lookupM accountName cache = some entry)
    (hexpired : ¬ now < entry.Expiration)
    (hrecentBad : now - negativeCacheSeconds < entry.LastBadTime) :
    getAWSRolesForAccount cache now nonCached accountName =
      (.ok entry.Roles, cache) := by
  unfold getAWSRolesForAccount
  rw [hfound]
  simp [hexpired, hrecentBad]

theorem claim_C4_witness :
    getAWSRolesForAccount
        [("acct1", { Roles := ["r"], Expiration := 0, LastBadTime := 95 })]
        100 (.error "boom") "acct1" =
      (.ok ["r"],
        [("acct1", { Roles := ["r"], Expiration := 0, LastBadTime := 95 })]) :=
  claim_C4_theorem _ 100 _ "acct1"
    { Roles := ["r"], Expiration := 0, LastBadTime := 95 }
    rfl (by decide) (by decide)

/-- C10: when an account name (respectively a username) has no entry at all
in the account-role cache (respectively the user-authorization cache) and
the non-cached computation fails, the error is returned and the cache map is
unchanged: nothing is inserted for the unseen key. -/
theorem claim_C10_theorem :
    (∀ (cache : List (String × accountRoleCacheEntry)) (now : Int)
        (accountName e : String),
      lookupM accountName cache = none →
      getAWSRolesForAccount cache now (.error e) accountName =
        (.error e, cache)) ∧
    (∀ (cache : List (String × userAllowedCredentialsCacheEntry)) (now : Int)
        (username e : String),
      lookupM username cache = none →
      getUserAllowedAccounts cache now (.error e) username =
        (.error e, cache)) := by
  constructor
  · intro cache now accountName e hmiss
    unfold getAWSRolesForAccount
    rw [hmiss]
  · intro cache now username e hmiss
    unfold getUserAllowedAccounts
    rw [hmiss]

theorem claim_C10_witness :
    getAWSRolesForAccount [] 7 (.error "down") "acct" = (.error "down", []) ∧
    getUserAllowedAccounts [] 7 (.error "down") "user" = (.error "down", []) :=
  ⟨claim_C10_theorem.1 [] 7 "acct" "down" rfl,
   claim_C10_theorem.2 [] 7 "user" "down" rfl⟩

/-- C7: the first thing finishUnsealing does is resolve master credentials;
when that fails (here: no master profile in the map and the metadata
endpoint errors) it returns nil early, publishing nothing on the readiness
channel and constructing no master STS client — contradicting the claim
that every call publishes one nil and constructs the client. -/
theorem claim_C7_counterexample :
    (finishUnsealing (initBroker "creds") (.err "metadata down")).sends = 0 ∧
    (finishUnsealing (initBroker "creds") (.err "metadata down")).masterSts
      = none := by
  constructor <;> rfl

/-- C7 (amended): finishUnsealing publishes exactly one nil on the
readiness channel and constructs the master STS client (binding the master
region) exactly when the master credentials resolve without error and with
a non-empty region; when resolution fails or the region is empty it
publishes nothing, constructs no client, and still returns nil. -/
theorem claim_C7_theorem (st : UnsealSt) (meta : MetaOutcome) :
    (∀ region,
      getCredentialsProviderFromProfile st.profileCredentials meta
          masterAWSProfileName = .ok region →
      region ≠ "" →
      finishUnsealing st meta =
        { st with masterSts := some region, sends := st.sends + 1 }) ∧
    (∀ e,
      getCredentialsProviderFromProfile st.profileCredentials meta
          masterAWSProfileName = .error e →
      finishUnsealing st meta = st) ∧
    (getCredentialsProviderFromProfile st.profileCredentials meta
        masterAWSProfileName = .ok "" →
      finishUnsealing st meta = st) := by
  refine ⟨?_, ?_, ?_⟩
  · intro region hok hne
    unfold finishUnsealing
    rw [hok]
    simp [hne]
  · intro e herr
    unfold finishUnsealing
    rw [herr]
  · intro hok
    unfold finishUnsealing
    rw [hok]
    simp

theorem claim_C7_witness :
    finishUnsealing
        { credentialsFilename := "creds",
          profileCredentials :=
            [("broker-master",
              { AccessKeyID := "AKIA", SecretAccessKey := "SECRET",
                Region := "us-west-2" })],
          masterSts := none, sends := 0 }
        (.err "ignored") =
      { credentialsFilename := "creds",
        profileCredentials :=
          [("broker-master",
            { AccessKeyID := "AKIA", SecretAccessKey := "SECRET",
              Region := "us-west-2" })],
        masterSts := some "us-west-2", sends := 1 } :=
  (claim_C7_theorem _ _).1 "us-west-2" rfl (by decide)

/-- C8: generateTokenCredentials assumes the role via the master profile,
falling back to the profile named after the account; on success the bundle
keeps the assume-role region exactly when it starts with "us-gov-" (and is
empty otherwise) and expires at now + 3600 seconds. -/
theorem claim_C8_theorem
    (assumeRole : String → String → String → String →
      Except String (StsCredentials × String))
    (now : Int) (accountName roleName userName : String) :
    (∀ creds region0,
      assumeRole accountName masterAWSProfileName roleName userName =
        .ok (creds, region0) →
      generateTokenCredentials assumeRole now accountName roleName userName =
        .ok { SessionId := creds.AccessKeyId,
              SessionKey := creds.SecretAccessKey,
              SessionToken := creds.SessionToken,
              Region := if stringHasPrefix region0 "us-gov-" then region0 else "",
              Expiration := now + 3600 }) ∧
    (∀ e creds region0,
      assumeRole accountName masterAWSProfileName roleName userName =
        .error e →
      assumeRole accountName accountName roleName userName =
        .ok (creds, region0) →
      generateTokenCredentials assumeRole now accountName roleName userName =
        .ok { SessionId := creds.AccessKeyId,
              SessionKey := creds.SecretAccessKey,
              SessionToken := creds.SessionToken,
              Region := if stringHasPrefix region0 "us-gov-" then region0 else "",
              Expiration := now + 3600 }) ∧
    (∀ out,
      generateTokenCredentials assumeRole now accountName roleName userName =
        .ok out →
      out.Expiration = now + 3600 ∧
        (stringHasPrefix out.Region "us-gov-" = true ∨ out.Region = "")) := by
  refine ⟨?_, ?_, ?_⟩
  · intro creds region0 hok
    unfold generateTokenCredentials
    rw [hok]
    rfl
  · intro e creds region0 herr hok
    unfold generateTokenCredentials
    rw [herr, hok]
    rfl
  · intro out hout
    unfold generateTokenCredentials at hout
    rcases hm : assumeRole accountName masterAWSProfileName roleName userName
      with e | ⟨creds, region0⟩
    · rw [hm] at hout
      rcases hf : assumeRole accountName accountName roleName userName
        with e2 | ⟨creds2, region2⟩
      · rw [hf] at hout
        simp at hout
      · rw [hf] at hout
        simp at hout
        subst hout
        constructor
        · rfl
        · by_cases hr : stringHasPrefix region2 "us-gov-" = true <;> simp [hr]
    · rw [hm] at hout
      simp at hout
      subst hout
      constructor
      · rfl
      · by_cases hr : stringHasPrefix region0 "us-gov-" = true <;> simp [hr]

theorem claim_C8_witness :
    generateTokenCredentials
        (fun _ p _ _ =>
          if p = masterAWSProfileName then
            .ok ({ AccessKeyId := "AK", SecretAccessKey := "SK",
                   SessionToken := "TK" }, "us-gov-west-1")
          else .error "x")
        1000 "acct" "Reader" "alice" =
      .ok { SessionId := "AK", SessionKey := "SK", SessionToken := "TK",
            Region := "us-gov-west-1", Expiration := 4600 } := by
  have h :=
    (claim_C8_theorem
      (fun _ p _ _ =>
        if p = masterAWSProfileName then
          .ok ({ AccessKeyId := "AK", SecretAccessKey := "SK",
                 SessionToken := "TK" }, "us-gov-west-1")
        else .error "x")
      1000 "acct" "Reader" "alice").1
      { AccessKeyId := "AK", SecretAccessKey := "SK", SessionToken := "TK" }
      "us-gov-west-1" (by simp)
  rw [h]
  rfl

theorem roleInAccounts_iff (accounts : List PermittedAccount)
    (accountName roleName : String) :
    roleInAccounts accounts accountName roleName = true ↔
      ∃ account ∈ accounts,
        account.Name = accountName ∧ roleName ∈ account.PermittedRoleName := by
  simp only [roleInAccounts, List.any_eq_true, Bool.and_eq_true, beq_iff_eq]
  constructor
  · rintro ⟨account, hmem, hname, r, hr, hreq⟩
    exact ⟨account, hmem, hname, hreq ▸ hr⟩
  · rintro ⟨account, hmem, hname, hr⟩
    exact ⟨account, hmem, hname, roleName, hr, rfl⟩

/-- C1: isUserAllowedToAssumeRole returns (true, nil) exactly when
getUserAllowedAccounts succeeds and its result contains an account whose
Name equals the requested account and whose PermittedRoleName list contains
the requested role under exact string equality; when getUserAllowedAccounts
succeeds but no such pair exists, the result is (false, nil) — a denial is
never reported as an error. -/
theorem claim_C1_theorem
    (cache : List (String × userAllowedCredentialsCacheEntry)) (now : Int)
    (nonCached : Except String (List PermittedAccount))
    (username accountName roleName : String) :
    ((isUserAllowedToAssumeRole cache now nonCached username accountName
        roleName).1 = (true, none) ↔
      ∃ accounts,
        (getUserAllowedAccounts cache now nonCached username).1 =
            .ok accounts ∧
          ∃ account ∈ accounts,
            account.Name = accountName ∧
              roleName ∈ account.PermittedRoleName) ∧
    (∀ accounts,
      (getUserAllowedAccounts cache now nonCached username).1 =
          .ok accounts →
      (∀ account ∈ accounts,
        ¬(account.Name = accountName ∧
            roleName ∈ account.PermittedRoleName)) →
      (isUserAllowedToAssumeRole cache now nonCached username accountName
          roleName).1 = (false, none)) := by
  rcases hg : getUserAllowedAccounts cache now nonCached username
    with ⟨res, cache2⟩
  rcases res with e | accounts
  · constructor
    · simp [isUserAllowedToAssumeRole, hg]
    · intro accounts2 hok
      simp at hok
  · have hiua :
        isUserAllowedToAssumeRole cache now nonCached username accountName
            roleName =
          ((roleInAccounts accounts accountName roleName, none), cache2) := by
      simp [isUserAllowedToAssumeRole, hg]
    constructor
    · rw [hiua]
      simp only [Prod.mk.injEq, and_true]
      constructor
      · intro htrue
        exact ⟨accounts, rfl,
          (roleInAccounts_iff accounts accountName roleName).mp htrue⟩
      · rintro ⟨accounts2, hok, hpair⟩
        replace hok : accounts = accounts2 := by simpa using hok
        subst hok
        exact (roleInAccounts_iff accounts accountName roleName).mpr hpair
    · intro accounts2 hok hnone
      replace hok : accounts = accounts2 := by simpa using hok
      subst hok
      rw [hiua]
      simp only [Prod.mk.injEq, and_true]
      rw [← Bool.not_eq_true]
      intro htrue
      obtain ⟨account, hmem, hname, hr⟩ :=
        (roleInAccounts_iff accounts accountName roleName).mp htrue
      exact hnone account hmem ⟨hname, hr⟩

theorem claim_C1_witness :
    (isUserAllowedToAssumeRole []
        0 (.ok [⟨"acct1", "acct1", ["Admin", "ReadOnly"]⟩]) "alice" "acct1"
        "Admin").1 = (true, none) :=
  (claim_C1_theorem [] 0 (.ok [⟨"acct1", "acct1", ["Admin", "ReadOnly"]⟩])
      "alice" "acct1" "Admin").1.mpr
    ⟨[⟨"acct1", "acct1", ["Admin", "ReadOnly"]⟩], rfl,
      ⟨"acct1", "acct1", ["Admin", "ReadOnly"]⟩, by simp, rfl, by simp⟩

theorem finishUnsealing_state (st : UnsealSt) (meta : MetaOutcome) :
    (finishUnsealing st meta).profileCredentials = st.profileCredentials ∧
      (finishUnsealing st meta).sends ≤ st.sends + 1 ∧
      (finishUnsealing st meta).credentialsFilename =
        st.credentialsFilename := by
  unfold finishUnsealing
  rcases getCredentialsProviderFromProfile st.profileCredentials meta
      masterAWSProfileName with e | region
  · exact ⟨rfl, Nat.le_succ _, rfl⟩
  · dsimp only
    split
    · exact ⟨rfl, Nat.le_succ _, rfl⟩
    · exact ⟨rfl, Nat.le_refl _, rfl⟩

theorem loadCredentialsFrombytes_state (st : UnsealSt)
    (sections : List IniSection) (meta : MetaOutcome) :
    (loadCredentialsFrombytes st sections meta).2.sends ≤ st.sends + 1 ∧
      ((loadCredentialsFrombytes st sections meta).2.profileCredentials = []
        → (loadCredentialsFrombytes st sections meta).2.sends = st.sends)
    := by
  unfold loadCredentialsFrombytes
  by_cases h : (loadProfiles st.profileCredentials sections).length < 1
  · rw [if_pos h]
    exact ⟨Nat.le_succ _, fun _ => rfl⟩
  · rw [if_neg h]
    have hfin := finishUnsealing_state
      { st with
          profileCredentials := loadProfiles st.profileCredentials sections }
      meta
    refine ⟨hfin.2.1, ?_⟩
    intro hnil
    rw [hfin.1] at hnil
    dsimp only at hnil
    exact absurd hnil fun hh => h (by rw [hh]; simp)

theorem processNewUnsealingSecret_inv (st : UnsealSt) (env : CallEnv)
    (h1 : st.sends ≤ 1) (h2 : st.profileCredentials = [] → st.sends = 0) :
    (processNewUnsealingSecret st env).2.sends ≤ 1 ∧
      ((processNewUnsealingSecret st env).2.profileCredentials = [] →
        (processNewUnsealingSecret st env).2.sends = 0) := by
  unfold processNewUnsealingSecret
  by_cases hfast : st.credentialsFilename = "" ∨
      0 < st.profileCredentials.length
  · rw [if_pos hfast]
    exact ⟨h1, h2⟩
  · rw [if_neg hfast]
    have hlen : ¬ 0 < st.profileCredentials.length :=
      fun h => hfast (Or.inr h)
    have hp : st.profileCredentials = [] := List.length_eq_zero.mp (by omega)
    have hs0 : st.sends = 0 := h2 hp
    cases env with
    | armorFail e => exact ⟨h1, fun _ => hs0⟩
    | readFail e => exact ⟨h1, fun _ => hs0⟩
    | iniParseFail => exact ⟨h1, fun _ => hs0⟩
    | plaintext sections meta =>
      dsimp only
      obtain ⟨hl1, hl2⟩ := loadCredentialsFrombytes_state st sections meta
      rcases hload : loadCredentialsFrombytes st sections meta
        with ⟨err, st2⟩
      rw [hload] at hl1 hl2
      dsimp only at hl1 hl2
      have hA : st2.sends ≤ 1 := by omega
      have hB : st2.profileCredentials = [] → st2.sends = 0 := by
        intro hh
        have := hl2 hh
        omega
      cases err with
      | none => exact ⟨hA, hB⟩
      | some e => exact ⟨hA, hB⟩

theorem runUnsealSteps_inv (envs : List CallEnv) (st : UnsealSt)
    (h1 : st.sends ≤ 1) (h2 : st.profileCredentials = [] → st.sends = 0) :
    (runUnsealSteps st envs).sends ≤ 1 := by
  induction envs generalizing st with
  | nil => exact h1
  | cons env rest ih =>
    simp only [runUnsealSteps, List.foldl_cons]
    have hstep := processNewUnsealingSecret_inv st env h1 h2
    have := ih (processNewUnsealingSecret st env).2 hstep.1 hstep.2
    simpa only [runUnsealSteps] using this

/-- C2: the code does not guarantee that the call which successfully
unseals sends a value: here the plaintext loads a non-master profile and
the metadata endpoint fails, so finishUnsealing aborts before the channel
send — the call reports success (true, nil) and leaves the broker unsealed
(non-empty profile map), yet zero values were ever sent. -/
theorem claim_C2_counterexample :
    (processNewUnsealingSecret (initBroker "creds")
        (.plaintext [iniSectionOther] (.err "metadata down"))).1 =
      (true, none) ∧
    (processNewUnsealingSecret (initBroker "creds")
        (.plaintext [iniSectionOther] (.err "metadata down"))).2.sends = 0 ∧
    0 < (processNewUnsealingSecret (initBroker "creds")
        (.plaintext [iniSectionOther]
          (.err "metadata down"))).2.profileCredentials.length := by
  refine ⟨rfl, rfl, by decide⟩

/-- C2 (amended): over every sequence of processNewUnsealingSecret calls on
a freshly created broker the readiness channel receives at most one value —
at most one call (the one that first loads a non-empty profile map and
whose master-credential resolution succeeds with a non-empty region) sends
a nil, and any call finding the profile map already non-empty returns
(true, nil) without sending or changing state. -/
theorem claim_C2_theorem :
    (∀ (credentialsFilename : String) (envs : List CallEnv),
      (runUnsealSteps (initBroker credentialsFilename) envs).sends ≤ 1) ∧
    (∀ (st : UnsealSt) (env : CallEnv),
      0 < st.profileCredentials.length →
      processNewUnsealingSecret st env = ((true, none), st)) := by
  constructor
  · intro fname envs
    exact runUnsealSteps_inv envs _ (by simp [initBroker]) fun _ => rfl
  · intro st env hp
    unfold processNewUnsealingSecret
    rw [if_pos (Or.inr hp)]

theorem claim_C2_witness :
    (runUnsealSteps (initBroker "creds")
        [.plaintext [iniSectionOther] (.err "metadata down"),
         .armorFail "e"]).sends ≤ 1 ∧
    processNewUnsealingSecret unsealedSt (.readFail "e") =
      ((true, none), unsealedSt) :=
  ⟨claim_C2_theorem.1 "creds" _, claim_C2_theorem.2 _ _ (by decide)⟩

theorem charListLe_total : ∀ l1 l2 : List Char,
    charListLe l1 l2 = true ∨ charListLe l2 l1 = true
  | [], _ => Or.inl rfl
  | _ :: _, [] => Or.inr rfl
  | c :: cs, d :: ds => by
    rcases lt_trichotomy c d with h | h | h
    · left
      simp [charListLe, h]
    · subst h
      rcases charListLe_total cs ds with h2 | h2
      · left
        simp [charListLe, lt_irrefl, h2]
      · right
        simp [charListLe, lt_irrefl, h2]
    · right
      simp [charListLe, h]

theorem charListLe_trans : ∀ l1 l2 l3 : List Char,
    charListLe l1 l2 = true → charListLe l2 l3 = true →
      charListLe l1 l3 = true
  | [], _, _, _, _ => rfl
  | _ :: _, [], _, h12, _ => by simp [charListLe] at h12
  | _ :: _, _ :: _, [], _, h23 => by simp [charListLe] at h23
  | c :: cs, d :: ds, e :: es, h12, h23 => by
    simp only [charListLe] at h12 h23 ⊢
    by_cases hcd : c < d
    · by_cases hde : d < e
      · simp [lt_trans hcd hde]
      · by_cases hed : e < d
        · rw [if_neg hde, if_pos hed] at h23
          exact absurd h23 (by simp)
        · have heq : d = e := le_antisymm (not_lt.mp hed) (not_lt.mp hde)
          subst heq
          simp [hcd]
    · by_cases hdc : d < c
      · rw [if_neg hcd, if_pos hdc] at h12
        exact absurd h12 (by simp)
      · have heq : c = d := le_antisymm (not_lt.mp hdc) (not_lt.mp hcd)
        subst heq
        rw [if_neg hcd, if_neg hdc] at h12
        by_cases hce : c < e
        · simp [hce]
        · by_cases hec : e < c
          · rw [if_neg hce, if_pos hec] at h23
            exact absurd h23 (by simp)
          · have heq2 : c = e := le_antisymm (not_lt.mp hec) (not_lt.mp hce)
            subst heq2
            rw [if_neg hce, if_neg hec] at h23
            rw [if_neg hce, if_neg hec]
            exact charListLe_trans cs ds es h12 h23

theorem sortStrings_sorted (l : List String) :
    List.Sorted (fun a b => stringLe a b = true) (sortStrings l) := by
  haveI : IsTotal String (fun a b => stringLe a b = true) :=
    ⟨fun a b => charListLe_total a.data b.data⟩
  haveI : IsTrans String (fun a b => stringLe a b = true) :=
    ⟨fun a b c h1 h2 => charListLe_trans a.data b.data c.data h1 h2⟩
  exact List.sorted_insertionSort _ _

theorem sortStrings_mem (l : List String) (x : String) :
    x ∈ sortStrings l ↔ x ∈ l :=
  (List.perm_insertionSort _ l).mem_iff

theorem sortStrings_eq_nil_iff (l : List String) :
    sortStrings l = [] ↔ l = [] := by
  constructor
  · intro h
    have hl := (List.perm_insertionSort
      (fun a b => stringLe a b = true) l).length_eq
    rw [show l.insertionSort (fun a b => stringLe a b = true) = sortStrings l
      from rfl, h] at hl
    exact List.length_eq_zero.mp hl.symm
  · intro h
    subst h
    rfl

theorem lookup_lower_map (l : List String) :
    ∀ (m : List (String × String)) (k v : String),
    lookupM k (l.foldl (fun m2 v1 => insertM (stringToLower v1) v1 m2) m)
        = some v →
      (v ∈ l ∧ stringToLower v = k) ∨ lookupM k m = some v := by
  induction l with
  | nil =>
    intro m k v h
    exact Or.inr h
  | cons x xs ih =>
    intro m k v h
    rw [List.foldl_cons] at h
    rcases ih _ k v h with h1 | h2
    · exact Or.inl ⟨List.mem_cons_of_mem _ h1.1, h1.2⟩
    · rw [lookupM_insertM] at h2
      by_cases hx : stringToLower x = k
      · rw [if_pos hx] at h2
        injection h2 with h3
        subst h3
        exact Or.inl ⟨List.mem_cons_self _ _, hx⟩
      · rw [if_neg hx] at h2
        exact Or.inr h2

theorem stringIntersectionNoDups_mem (set1 set2 : List String) (x : String)
    (h : x ∈ stringIntersectionNoDups set1 set2) :
    x ∈ set1 ∧ ∃ v2 ∈ set2, stringToLower v2 = stringToLower x := by
  simp only [stringIntersectionNoDups, List.mem_filterMap] at h
  obtain ⟨v2, hv2, hlook⟩ := h
  rcases lookup_lower_map set1 [] (stringToLower v2) x hlook with h1 | h2
  · exact ⟨h1.1, v2, hv2, h1.2.symm⟩
  · simp [lookupM] at h2

theorem emitOneAccount_mem
    (live : String → Except String (List String))
    (accountName displayName : String) (allowedRoles : List String)
    (pa : PermittedAccount)
    (h : pa ∈ emitOneAccount live accountName displayName allowedRoles) :
    pa.Name = accountName ∧
      ∃ liveRoles,
        live accountName = .ok liveRoles ∧
          stringIntersectionNoDups liveRoles allowedRoles ≠ [] ∧
          pa.PermittedRoleName =
            sortStrings (stringIntersectionNoDups liveRoles allowedRoles) := by
  unfold emitOneAccount at h
  rcases hlive : live accountName with e | rolesForAccount
  · rw [hlive] at h
    simp at h
  · rw [hlive] at h
    by_cases hint :
        (stringIntersectionNoDups rolesForAccount allowedRoles).length < 1
    · simp only [if_pos hint] at h
      simp at h
    · simp only [if_neg hint] at h
      simp only [List.mem_singleton] at h
      subst h
      refine ⟨rfl, rolesForAccount, rfl, ?_, rfl⟩
      intro hnil
      rw [hnil] at hint
      simp at hint

theorem emitPermitted_mem (accounts : List Account)
    (groupToAccountName : List (String × String))
    (live : String → Except String (List String)) :
    ∀ (entries : List (String × List String))
      (result : List PermittedAccount),
    emitPermitted accounts groupToAccountName live entries = .ok result →
    ∀ pa ∈ result,
      ∃ groupName allowedRoles liveRoles,
        (groupName, allowedRoles) ∈ entries ∧
          lookupM groupName groupToAccountName = some pa.Name ∧
          live pa.Name = .ok liveRoles ∧
          stringIntersectionNoDups liveRoles allowedRoles ≠ [] ∧
          pa.PermittedRoleName =
            sortStrings (stringIntersectionNoDups liveRoles allowedRoles)
    := by
  intro entries
  induction entries with
  | nil =>
    intro result h pa hpa
    simp only [emitPermitted, Except.ok.injEq] at h
    subst h
    simp at hpa
  | cons entry rest ih =>
    obtain ⟨groupName, allowedRoles⟩ := entry
    intro result h pa hpa
    simp only [emitPermitted] at h
    rcases hga : lookupM groupName groupToAccountName with _ | accountName
    · rw [hga] at h
      simp at h
    · rw [hga] at h
      dsimp only at h
      rcases hhn : accountHumanNameFromName accounts accountName
        with e | displayName
      · rw [hhn] at h
        simp at h
      · rw [hhn] at h
        dsimp only at h
        rcases hrest : emitPermitted accounts groupToAccountName live rest
          with e | others
        · rw [hrest] at h
          simp at h
        · rw [hrest] at h
          simp only [Except.ok.injEq] at h
          subst h
          rcases List.mem_append.mp hpa with hmem | hmem
          · obtain ⟨hname, liveRoles, h1, h2, h3⟩ :=
              emitOneAccount_mem live accountName displayName allowedRoles
                pa hmem
            exact ⟨groupName, allowedRoles, liveRoles,
              List.mem_cons_self _ _, hname ▸ hga, hname ▸ h1, h2, h3⟩
          · obtain ⟨g2, a2, lr2, hmem2, hga2, h1, h2, h3⟩ :=
              ih others hrest pa hmem
            exact ⟨g2, a2, lr2, List.mem_cons_of_mem _ hmem2, hga2, h1, h2,
              h3⟩

/-- C5: the intersection is NOT duplicate-free: with the single live role
Admin and user groups acct1-admin and acct1-ADMIN (case-insensitive
duplicates), the emitted PermittedRoleName is [Admin, Admin] — sorted but
containing a duplicate, refuting the claimed duplicate-freeness. -/
theorem claim_C5_counterexample :
    getUserAllowedAccountsFromGroups [acctPlain] groupRoleMatch liveAdmin
        ["acct1-admin", "acct1-ADMIN"] =
      .ok [⟨"acct1", "acct1", ["Admin", "Admin"]⟩] ∧
    ¬ (["Admin", "Admin"] : List String).Nodup := by
  constructor
  · rfl
  · simp

/-- C5 (amended): every PermittedAccount emitted by
getUserAllowedAccountsFromGroups carries a PermittedRoleName list that is
the lexicographically sorted case-insensitive intersection of the user's
allowed role names for that account — the entry of the allowedRoles map
computed from the regex matches over the user's groups merged with the
account's configured extraUserRoles, under a group name that maps to the
emitted account — with the account's live role list; the list is nonempty
(accounts with an empty intersection, or whose enumeration failed, are
omitted), each element keeps the casing of the live enumeration and matches
some allowed name case-insensitively; the list can contain duplicates when
the allowed names contain case-insensitive duplicates. -/
theorem claim_C5_theorem (accounts : List Account)
    (matcher : String → String → Option String)
    (live : String → Except String (List String))
    (userGroups : List String) (result : List PermittedAccount)
    (hok : getUserAllowedAccountsFromGroups accounts matcher live userGroups
      = .ok result) :
    ∀ pa ∈ result,
      ∃ groupName allowedRoles liveRoles,
        (groupName, allowedRoles) ∈
            allowedRolesMap accounts matcher userGroups ∧
          lookupM groupName (groupToAccountNameMap accounts) =
            some pa.Name ∧
          live pa.Name = .ok liveRoles ∧
          stringIntersectionNoDups liveRoles allowedRoles ≠ [] ∧
          pa.PermittedRoleName =
            sortStrings (stringIntersectionNoDups liveRoles allowedRoles) ∧
          List.Sorted (fun a b => stringLe a b = true)
            pa.PermittedRoleName ∧
          pa.PermittedRoleName ≠ [] ∧
          ∀ r ∈ pa.PermittedRoleName,
            r ∈ liveRoles ∧
              ∃ v2 ∈ allowedRoles,
                stringToLower v2 = stringToLower r := by
  intro pa hpa
  simp only [getUserAllowedAccountsFromGroups] at hok
  obtain ⟨groupName, allowedRoles, liveRoles, hentry, hmap, h1, h2, h3⟩ :=
    emitPermitted_mem accounts _ live _ result hok pa hpa
  refine ⟨groupName, allowedRoles, liveRoles, hentry, hmap, h1, h2, h3,
    ?_, ?_, ?_⟩
  · rw [h3]
    exact sortStrings_sorted _
  · rw [h3]
    intro hnil
    exact h2 ((sortStrings_eq_nil_iff _).mp hnil)
  · intro r hr
    rw [h3, sortStrings_mem] at hr
    obtain ⟨hr1, v2, hv2, hveq⟩ :=
      stringIntersectionNoDups_mem liveRoles allowedRoles r hr
    exact ⟨hr1, v2, hv2, hveq⟩

theorem claim_C5_witness :
    ∃ groupName allowedRoles liveRoles,
      (groupName, allowedRoles) ∈
          allowedRolesMap [acctPlain] groupRoleMatch
            ["acct1-admin", "acct1-ADMIN"] ∧
        lookupM groupName (groupToAccountNameMap [acctPlain]) =
          some "acct1" ∧
        liveAdmin "acct1" = .ok liveRoles ∧
        stringIntersectionNoDups liveRoles allowedRoles ≠ [] ∧
        (["Admin", "Admin"] : List String) =
          sortStrings (stringIntersectionNoDups liveRoles allowedRoles) ∧
        List.Sorted (fun a b => stringLe a b = true)
          (["Admin", "Admin"] : List String) ∧
        (["Admin", "Admin"] : List String) ≠ [] ∧
        ∀ r ∈ (["Admin", "Admin"] : List String),
          r ∈ liveRoles ∧
            ∃ v2 ∈ allowedRoles,
              stringToLower v2 = stringToLower r :=
  claim_C5_theorem [acctPlain] groupRoleMatch liveAdmin
    ["acct1-admin", "acct1-ADMIN"] [⟨"acct1", "acct1", ["Admin", "Admin"]⟩]
    (by rfl) ⟨"acct1", "acct1", ["Admin", "Admin"]⟩ (by simp)

end CloudGate
